import Mathlib

/-!
# Career-Copilot: credential pool and call-executor verification

Shallow embedding of the API-key pool (`src/app/api_key_pool.py`), the two
LLM call executors (`call_llm` in `src/app/agent.py`, `call_llama` in
`src/app/llama_analyzer.py`), the JSON response decoder
(`parse_json_response`, `src/app/agent.py`) and the keyword-matching demo
fallback (`get_demo_analysis`, `src/app/agent.py`), together with theorems
settling the spec's claims about them.

Modelling conventions:
* timestamps (`time.time()`) are exact rationals;
* Python dicts read through `.get(k, d)` become total functions
  (`String → Option _` when membership/`del` matters);
* each pool method takes the `now` at which the source samples `time.time()`;
* the single `threading.Lock` is modelled explicitly: the lock is free
  whenever a public method is entered, and — because `threading.Lock` is
  *non-reentrant* — an acquire performed while the same caller already holds
  the lock blocks forever.  Methods therefore return a `LockRes` that is
  either a normal return (with an event trace of acquires/releases/sleeps)
  or a `deadlock`.
-/

namespace CareerCopilot

/-- Simulated wall-clock time in whole seconds (`time.time()`).  Integer
timestamps suffice for every claim; the extra `0.1` seconds the source
sleeps past the soonest expiry is captured by recording the absolute expiry
time being waited for in the `sleep` event. -/
abbrev Time := ℤ

/-- Lock/suspension events performed by a pool method, in program order.
`sleep until_t` is `time.sleep(until_t - now + 0.1)`: sleeping until just
past the absolute time `until_t`. -/
inductive PEvent where
  | lockAcq
  | lockRel
  | sleep (until_t : Time)
  deriving DecidableEq

/-- State of `APIKeyPool` (api_key_pool.py:24-30): the fixed key list
`self._keys`, the `self._cooldowns` dict (`none` = key absent) and the
`self._usage_counts` dict (read through `.get(k, 0)`). -/
@[ext] structure APIKeyPool where
  keys : List String
  cooldowns : String → Option Time
  usage : String → Nat

/-- `self._cooldowns.get(k, 0)` (api_key_pool.py:81,100,107). -/
def cdGet (p : APIKeyPool) (k : String) : Time := (p.cooldowns k).getD 0

/-- The `total_keys` property (api_key_pool.py:70-72). -/
def total_keys (p : APIKeyPool) : Nat := p.keys.length

/-- The list of keys not on cooldown, in `self._keys` order
(api_key_pool.py:98-101). -/
def availList (p : APIKeyPool) (now : Time) : List String :=
  p.keys.filter (fun k => cdGet p k ≤ now)

/-- The `available_keys` property (api_key_pool.py:74-82):
`sum(1 for k in self._keys if self._cooldowns.get(k, 0) <= now)`. -/
def available_keys (p : APIKeyPool) (now : Time) : Nat := (availList p now).length

/-- `has_available_key` (api_key_pool.py:84-86):
`self.available_keys > 0 or bool(os.environ.get("GROQ_API_KEY"))`.
`env` models `os.environ.get` with `""` for an unset variable (both `None`
and `""` are falsy in Python). -/
def has_available_key (p : APIKeyPool) (now : Time) (env : String → String) : Bool :=
  decide (0 < available_keys p now) || decide (env "GROQ_API_KEY" ≠ "")

/-- Result of a pool method executed by one caller with the lock initially
free: either the method returns (result, updated pool, event trace), or it
blocks forever re-acquiring the non-reentrant `self._lock` it already holds.
`deadlock` carries the trace up to the blocked acquire and the heap state at
that moment (unobservable by other callers: the lock is never released). -/
inductive LockRes (α : Type) where
  | ok (a : α) (p : APIKeyPool) (tr : List PEvent)
  | deadlock (tr : List PEvent) (p : APIKeyPool)

/-- Python's `min(available, key=lambda k: self._usage_counts.get(k, 0))` on
the non-empty list `x :: xs` (api_key_pool.py:119): a left fold replacing the
candidate only on a strictly smaller value, hence returning the *first*
minimizer. -/
def pymin (f : String → Nat) (x : String) (xs : List String) : String :=
  xs.foldl (fun b k => if f k < f b then k else b) x

/-- The `soonest` computation in `get_key` (api_key_pool.py:105-109):
`if cd > now and (soonest is None or cd < soonest): soonest = cd`. -/
def soonestCooldown (p : APIKeyPool) (now : Time) : Option Time :=
  p.keys.foldl
    (fun soonest k =>
      let cd := cdGet p k
      if decide (now < cd) &&
          (match soonest with
           | none => true
           | some s => decide (cd < s)) then
        some cd
      else soonest)
    none

/-- `get_key` (api_key_pool.py:88-121).  The whole body runs inside
`with self._lock:` (line 96).  In the branch where every key is cooling and
the soonest expiry is near, the source calls
`time.sleep(soonest - now + 0.1)` (line 113) and then `return self.get_key()`
(line 114) while *still holding the lock*; the recursive call's
`with self._lock:` then blocks forever on the non-reentrant `threading.Lock`.
Python truthiness: the guard `if soonest and (soonest - now) <= 5` (line 111)
is false when `soonest` is `None` *or* `0.0`. -/
def get_key (p : APIKeyPool) (now : Time) : LockRes (Option String) :=
  match availList p now with
  | [] =>
    match soonestCooldown p now with
    | some s =>
      if s ≠ 0 ∧ s - now ≤ 5 then
        LockRes.deadlock [PEvent.lockAcq, PEvent.sleep s, PEvent.lockAcq] p
      else
        LockRes.ok none p [PEvent.lockAcq, PEvent.lockRel]
    | none => LockRes.ok none p [PEvent.lockAcq, PEvent.lockRel]
  | k :: ks =>
    let best := pymin p.usage k ks
    LockRes.ok (some best)
      { p with usage := fun k' => if k' = best then p.usage best + 1 else p.usage k' }
      [PEvent.lockAcq, PEvent.lockRel]

/-- `mark_rate_limited` (api_key_pool.py:123-129).  Inside `with self._lock:`
(line 125) it writes the cooldown (line 126) and then evaluates
`remaining = self.available_keys` (line 127): the `available_keys` property
getter runs `with self._lock:` on the lock this thread already holds, so the
acquire blocks forever — the method never returns and never releases the
lock. -/
def mark_rate_limited (p : APIKeyPool) (key : String) (now cooldown_seconds : Time) :
    LockRes Unit :=
  let p' : APIKeyPool :=
    { p with
      cooldowns := fun k => if k = key then some (now + cooldown_seconds) else p.cooldowns k }
  LockRes.deadlock [PEvent.lockAcq, PEvent.lockAcq] p'

/-- State effect of `mark_success` (api_key_pool.py:131-136):
`if key in self._cooldowns and self._cooldowns[key] > time.time(): del ...`.
The method takes the lock once, mutates nothing else, and always returns. -/
def mark_success (p : APIKeyPool) (key : String) (now : Time) : APIKeyPool :=
  match p.cooldowns key with
  | some cd =>
    if now < cd then
      { p with cooldowns := fun k => if k = key then none else p.cooldowns k }
    else p
  | none => p

/-- The lock is held after the first `i` events of `tr` iff acquires strictly
outnumber releases there. -/
def lockHeldAfter (tr : List PEvent) (i : Nat) : Bool :=
  decide ((tr.take i).count PEvent.lockRel < (tr.take i).count PEvent.lockAcq)

/-- A freshly constructed pool over key list `L`: empty `_cooldowns`, every
usage counter `0` (api_key_pool.py:24-66). -/
def freshPool (L : List String) : APIKeyPool :=
  { keys := L, cooldowns := fun _ => none, usage := fun _ => 0 }

/-! ## The call executors -/

/-- Outcome of one upstream `client.chat.completions.create` call as seen at
the `except Exception as e` handler: response text, or the exception's
message (`str(e)`). -/
inductive CallOutcome where
  | success (text : String)
  | failure (msg : String)

/-- The upstream boundary: the outcome of an attempted call as a function of
the attempt index and the key used. -/
abbrev Oracle := Nat → String → CallOutcome

/-- `pat` occurs at the head of the second list. -/
def leadsWith : List Char → List Char → Bool
  | [], _ => true
  | _ :: _, [] => false
  | p :: ps, c :: cs => p == c && leadsWith ps cs

/-- Python's substring test `pat in l`. -/
def containsSub (pat : List Char) : List Char → Bool
  | [] => leadsWith pat []
  | c :: cs => leadsWith pat (c :: cs) || containsSub pat cs

/-- Throttling classification shared by both executors (agent.py:79-81,
llama_analyzer.py:177-180): `error_msg = str(e).lower()` then
`"rate_limit" in error_msg or "429" in error_msg`. -/
def isThrottle (msg : String) : Bool :=
  containsSub "rate_limit".data (msg.data.map Char.toLower) ||
    containsSub "429".data (msg.data.map Char.toLower)

/-- Terminal outcome of one executor invocation.  `attempts` counts upstream
calls actually performed.  `exhausted` is the `raise Exception(...)` after
the loop — reached both via `break` on a missing key and by running out of
iterations — carrying `last_error`; `raised` is the re-`raise` of a
non-throttling exception; `deadlock` is reached when a pool method blocks
forever. -/
inductive ExecResult where
  | success (text : String) (p : APIKeyPool) (attempts : Nat)
  | raised (msg : String) (p : APIKeyPool) (attempts : Nat)
  | exhausted (lastError : Option String) (p : APIKeyPool) (attempts : Nat)
  | deadlock (attempts : Nat)

/-- Loop of `call_llm` (agent.py:57-89):
`for attempt in range(max(pool.total_keys, 1))`, `break` on a falsy key,
`mark_success` + return on success, `mark_rate_limited` + `continue` on a
throttling failure, bare `raise` otherwise, and a final
`raise Exception(f"All API keys exhausted. Last error: {last_error}")`. -/
def call_llm_go (oracle : Oracle) (now : Time) :
    Nat → Nat → APIKeyPool → Option String → Nat → ExecResult
  | 0, _, p, lastError, calls => ExecResult.exhausted lastError p calls
  | fuel + 1, idx, p, lastError, calls =>
    match get_key p now with
    | LockRes.deadlock _ _ => ExecResult.deadlock calls
    | LockRes.ok none p' _ => ExecResult.exhausted lastError p' calls
    | LockRes.ok (some key) p' _ =>
      match oracle idx key with
      | CallOutcome.success text =>
        ExecResult.success text (mark_success p' key now) (calls + 1)
      | CallOutcome.failure msg =>
        if isThrottle msg then
          match mark_rate_limited p' key now 60 with
          | LockRes.deadlock _ _ => ExecResult.deadlock (calls + 1)
          | LockRes.ok _ p'' _ =>
            call_llm_go oracle now fuel (idx + 1) p'' (some msg) (calls + 1)
        else ExecResult.raised msg p' (calls + 1)

/-- `call_llm` (agent.py:49-89). -/
def call_llm (oracle : Oracle) (p : APIKeyPool) (now : Time) : ExecResult :=
  call_llm_go oracle now (max (total_keys p) 1) 0 p none 0

/-- Loop of `call_llama` (llama_analyzer.py:141-188): identical to
`call_llm`'s, except that when the pool returns no key it falls back to
`os.environ.get("GROQ_API_KEY")` and only breaks when that is empty too
(lines 152-156). -/
def call_llama_go (env : String → String) (oracle : Oracle) (now : Time) :
    Nat → Nat → APIKeyPool → Option String → Nat → ExecResult
  | 0, _, p, lastError, calls => ExecResult.exhausted lastError p calls
  | fuel + 1, idx, p, lastError, calls =>
    match get_key p now with
    | LockRes.deadlock _ _ => ExecResult.deadlock calls
    | LockRes.ok keyOpt p' _ =>
      match (match keyOpt with
             | some k => some k
             | none =>
               if env "GROQ_API_KEY" = "" then none else some (env "GROQ_API_KEY")) with
      | none => ExecResult.exhausted lastError p' calls
      | some key =>
        match oracle idx key with
        | CallOutcome.success text =>
          ExecResult.success text (mark_success p' key now) (calls + 1)
        | CallOutcome.failure msg =>
          if isThrottle msg then
            match mark_rate_limited p' key now 60 with
            | LockRes.deadlock _ _ => ExecResult.deadlock (calls + 1)
            | LockRes.ok _ p'' _ =>
              call_llama_go env oracle now fuel (idx + 1) p'' (some msg) (calls + 1)
          else ExecResult.raised msg p' (calls + 1)

/-- `call_llama` (llama_analyzer.py:141-188). -/
def call_llama (env : String → String) (oracle : Oracle) (p : APIKeyPool) (now : Time) :
    ExecResult :=
  call_llama_go env oracle now (max (total_keys p) 1) 0 p none 0

/-- `n` successive `get_key` calls in isolation, collecting each returned key
together with its usage count just before the acquisition (harness for the
round-robin fairness scenario).  Stops if `get_key` yields no key or blocks. -/
def acquireSeq (now : Time) : Nat → APIKeyPool → List (String × Nat) × APIKeyPool
  | 0, p => ([], p)
  | n + 1, p =>
    match get_key p now with
    | LockRes.ok (some k) p' _ =>
      let rest := acquireSeq now n p'
      ((k, p.usage k) :: rest.1, rest.2)
    | _ => ([], p)

/-! ## Structured-response decoder (agent.py:34-46) -/

/-- ASCII whitespace, for Python's `str.strip()`. -/
def isWsChar (c : Char) : Bool := c = ' ' || c = '\t' || c = '\n' || c = '\r'

/-- Left strip. -/
def trimL (l : List Char) : List Char := l.dropWhile isWsChar

/-- Python's `str.strip()`: drop whitespace from both ends. -/
def trimChars (l : List Char) : List Char :=
  ((l.dropWhile isWsChar).reverse.dropWhile isWsChar).reverse

/-- Python's `text.endswith(pat)`. -/
def trailsWith (pat l : List Char) : Bool := leadsWith pat.reverse l.reverse

/-- The fence-stripping part of `parse_json_response` (agent.py:36-44):
after `strip()`, drop a leading `"```json"` (7 chars) or else a bare
`"```"` (3 chars); drop a trailing `"```"`; `strip()` again (line 46). -/
def stripFence (l : List Char) : List Char :=
  let text := trimChars l
  let text :=
    if leadsWith "```json".data text then text.drop 7
    else if leadsWith "```".data text then text.drop 3
    else text
  let text := if trailsWith "```".data text then text.take (text.length - 3) else text
  trimChars text

/-- Modelled from the spec: the Python stdlib `json` module used by
`parse_json_response` is external to `src/`.  The spec's "structured
mapping" (§3, §4.3) is modelled as an association list of string keys to
string values; `itemChars` renders one `"key": "value"` item exactly as
`json.dumps` does (`": "` key separator). -/
def itemChars (kv : String × String) : List Char :=
  '"' :: kv.1.data ++ '"' :: ':' :: ' ' :: '"' :: kv.2.data ++ ['"']

/-- Modelled from the spec: the comma-joined body of a rendered mapping
(`", "` item separator, as `json.dumps` uses). -/
def bodyChars : List (String × String) → List Char
  | [] => []
  | [kv] => itemChars kv
  | kv :: kv' :: rest => itemChars kv ++ ',' :: ' ' :: bodyChars (kv' :: rest)

/-- Modelled from the spec: `json.dumps` on a flat string-to-string
mapping. -/
def json_dumps_chars (m : List (String × String)) : List Char :=
  '{' :: bodyChars m ++ ['}']

/-- Modelled from the spec: scanner for the characters of a `json.loads`
string literal after its opening quote (no escape handling: a backslash or
an unterminated literal fails). -/
def takeStr : List Char → List Char → Option (List Char × List Char)
  | [], _ => none
  | c :: r, acc =>
    if c = '"' then some (acc.reverse, r)
    else if c = '\\' then none
    else takeStr r (c :: acc)

/-- Modelled from the spec: a whole `json.loads` string literal. -/
def parseStrLit : List Char → Option (List Char × List Char)
  | '"' :: r => takeStr r []
  | _ => none

/-- Modelled from the spec: the item loop of the `json.loads` model; one
fuel unit is spent per parsed item, and the text must end right after the
closing brace. -/
def parseItems : Nat → List Char → List (String × String) →
    Option (List (String × String))
  | 0, _, _ => none
  | fuel + 1, l, acc =>
    match parseStrLit l with
    | none => none
    | some (k, r1) =>
      match trimL r1 with
      | ':' :: r2 =>
        match parseStrLit (trimL r2) with
        | none => none
        | some (v, r3) =>
          match trimL r3 with
          | '}' :: r4 =>
            if trimL r4 = [] then some (acc ++ [(String.mk k, String.mk v)]) else none
          | ',' :: r4 => parseItems fuel (trimL r4) (acc ++ [(String.mk k, String.mk v)])
          | _ => none
      | _ => none

/-- Modelled from the spec: `json.loads` restricted to flat string-to-string
mappings (the spec's "structured mapping", §4.3).  `none` models raising
`json.JSONDecodeError` on anything that is not such a mapping. -/
def json_loads_chars (l : List Char) : Option (List (String × String)) :=
  match trimChars l with
  | '{' :: r =>
    match trimL r with
    | '}' :: r2 => if trimL r2 = [] then some [] else none
    | r' => parseItems r'.length r' []
  | _ => none

/-- `parse_json_response` (agent.py:34-46): the source's fence stripping,
then the modelled `json.loads`; a `none` result models raising the decode
error. -/
def parse_json_response (s : String) : Option (List (String × String)) :=
  json_loads_chars (stripFence s.data)

/-- Key/value strings renderable without escapes: no quote, no backslash. -/
def goodStr (s : String) : Bool := s.data.all (fun c => !(c = '"') && !(c = '\\'))

/-- A fence-wrapped payload with language tag `tag` (empty = untagged). -/
def fenceWrap (tag : String) (payload : List Char) : List Char :=
  "```".data ++ tag.data ++ '\n' :: payload ++ '\n' :: "```".data

/-! ## Demo/fallback generator (`get_demo_analysis`, agent.py:92-217)

A pure function of the resume text and target role: the source uses no
randomness, no time and no I/O, so the embedding is a total function and
two calls with the same arguments are definitionally equal. -/

/-- `resume_text.lower()` (agent.py:95), for the ASCII texts involved. -/
def pyLower (s : String) : List Char := s.data.map Char.toLower

/-- Python's `str.title()`: the first letter of each alphabetic run is
uppercased, the rest lowercased (agent.py:180,188). -/
def pyTitleGo : Bool → List Char → List Char
  | _, [] => []
  | prevAlpha, c :: cs =>
    (if c.isAlpha then (if prevAlpha then c.toLower else c.toUpper) else c) ::
      pyTitleGo c.isAlpha cs

/-- `skill.title()`. -/
def pyTitle (s : String) : String := String.mk (pyTitleGo false s.data)

/-- `enumerate` over a list with an index-aware map. -/
def enumMap (f : Nat → α → β) : Nat → List α → List β
  | _, [] => []
  | i, x :: xs => f i x :: enumMap f (i + 1) xs

/-- The fixed `all_skills` vocabulary (agent.py:98-104). -/
def allSkills : List String :=
  ["python", "javascript", "react", "node.js", "sql", "html", "css",
   "java", "c++", "git", "docker", "aws", "azure", "machine learning",
   "data analysis", "excel", "tableau", "power bi", "pandas", "numpy",
   "tensorflow", "pytorch", "api", "rest", "mongodb", "postgresql",
   "agile", "scrum", "leadership", "communication", "problem solving"]

/-- `found_skills` (agent.py:106): vocabulary entries occurring as
substrings of the lowercased resume. -/
def foundSkills (resume : String) : List String :=
  allSkills.filter (fun sk => containsSub sk.data (pyLower resume))

/-- The `role_requirements` table with its
`.get(target_role, role_requirements["Frontend Developer"])` default
(agent.py:109-144): `(core, supporting)` keyword lists per role. -/
def roleReqs (role : String) : List String × List String :=
  if role = "Frontend Developer" then
    (["react", "javascript", "html", "css", "typescript", "vue.js"],
     ["git", "testing", "responsive design", "api integration"])
  else if role = "Data Analyst" then
    (["sql", "python", "excel", "data visualization", "statistics"],
     ["tableau", "power bi", "pandas", "machine learning basics"])
  else if role = "Backend Developer" then
    (["python", "java", "sql", "api", "database design"],
     ["docker", "aws", "microservices", "security"])
  else if role = "Full Stack Developer" then
    (["javascript", "react", "node.js", "sql", "api"],
     ["docker", "git", "cloud services", "devops"])
  else if role = "Machine Learning Engineer" then
    (["python", "machine learning", "tensorflow", "pandas"],
     ["docker", "aws", "mlops", "statistics"])
  else if role = "DevOps Engineer" then
    (["docker", "kubernetes", "aws", "ci/cd", "linux"],
     ["python", "terraform", "monitoring", "security"])
  else if role = "Product Manager" then
    (["product strategy", "user research", "roadmapping", "agile"],
     ["sql", "analytics", "communication", "leadership"])
  else if role = "UX Designer" then
    (["figma", "user research", "wireframing", "prototyping"],
     ["html", "css", "usability testing", "design systems"])
  else
    (["react", "javascript", "html", "css", "typescript", "vue.js"],
     ["git", "testing", "responsive design", "api integration"])

/-- `core_match` (agent.py:147): core keywords found in the resume. -/
def coreMatch (resume role : String) : Nat :=
  ((roleReqs role).1.filter (fun s => containsSub s.data (pyLower resume))).length

/-- `supporting_match` (agent.py:148). -/
def supportingMatch (resume role : String) : Nat :=
  ((roleReqs role).2.filter (fun s => containsSub s.data (pyLower resume))).length

/-- The fit score (agent.py:153-154):
`int((core/total_core)*70 + (supp/total_supp)*30)` then
`max(25, min(95, score + 20))`.  The Python `int()` truncation of the
nonnegative float is modelled as the floor of the exact rational. -/
def demoScore (resume role : String) : ℤ :=
  let score : ℤ :=
    Int.floor (((coreMatch resume role : ℚ) / ((roleReqs role).1.length : ℚ)) * 70 +
      ((supportingMatch resume role : ℚ) / ((roleReqs role).2.length : ℚ)) * 30)
  max 25 (min 95 (score + 20))

/-- One roadmap entry (agent.py:179-200). -/
structure RoadmapItem where
  skill : String
  priority : String
  estimated_time : String
  expected_outcome : String
  deriving DecidableEq

/-- The dict returned by `get_demo_analysis` (agent.py:202-217). -/
structure DemoAnalysis where
  role_fit_score : ℤ
  strengths : List String
  gaps_core : List String
  gaps_supporting : List String
  roadmap : List RoadmapItem
  analysis_notes : String
  reflection_status : String
  reflection_reason : String
  target_role : String
  demo_mode : Bool
  deriving DecidableEq

/-- `get_demo_analysis` (agent.py:92-217). -/
def get_demo_analysis (resume_text target_role : String) : DemoAnalysis :=
  let rl := pyLower resume_text
  let has := fun (pat : String) => containsSub pat.data rl
  let found_skills := foundSkills resume_text
  let reqs := roleReqs target_role
  let score := demoScore resume_text target_role
  let missing_core := reqs.1.filter (fun s => !containsSub s.data rl)
  let missing_supporting := reqs.2.filter (fun s => !containsSub s.data rl)
  let strengths :=
    (if found_skills ≠ [] then
      ["Technical proficiency in " ++ String.intercalate ", " (found_skills.take 3)]
     else []) ++
    (if has "leadership" || has "led" || has "managed" then
      ["Leadership and team management experience"] else []) ++
    (if has "project" then ["Project delivery experience"] else []) ++
    (if decide (5 < found_skills.length) then ["Diverse technical skill set"] else []) ++
    (if has "agile" || has "scrum" then ["Agile methodology experience"] else [])
  let strengths :=
    if strengths = [] then ["Foundational knowledge present", "Enthusiasm for learning"]
    else strengths
  let roadmap : List RoadmapItem :=
    enumMap (fun i skill =>
      { skill := pyTitle skill
        priority := "High"
        estimated_time := toString ((i + 1) * 2) ++ " weeks"
        expected_outcome :=
          "Become proficient in " ++ skill ++ " for " ++ target_role ++ " role" })
      0 (missing_core.take 3) ++
    enumMap (fun i skill =>
      { skill := pyTitle skill
        priority := "Medium"
        estimated_time := toString (i + 1) ++ " week"
        expected_outcome := "Add " ++ skill ++ " as a supporting skill" })
      0 (missing_supporting.take 2)
  let roadmap :=
    if roadmap = [] then
      [{ skill := "Advanced " ++ (found_skills.headD "Programming")
         priority := "Medium"
         estimated_time := "3 weeks"
         expected_outcome := "Deepen existing expertise" }]
    else roadmap
  { role_fit_score := score
    strengths := strengths.take 4
    gaps_core := missing_core.take 4
    gaps_supporting := missing_supporting.take 3
    roadmap := roadmap
    analysis_notes :=
      "Based on resume analysis, you show " ++ toString score ++
        "% alignment with the " ++ target_role ++
        " role. Focus on the identified skill gaps to improve your candidacy."
    reflection_status := "sufficient"
    reflection_reason :=
      "This roadmap addresses the key gaps for " ++ target_role ++
        ". Following it will significantly improve your role fit."
    target_role := target_role
    demo_mode := true }

/-! ## Concrete fixtures for witnesses and counterexamples -/

/-- One key, on cooldown until `t = 3`. -/
def poolOneCooling : APIKeyPool :=
  { keys := ["k1"], cooldowns := fun k => if k = "k1" then some 3 else none,
    usage := fun _ => 0 }

/-- An upstream that always fails with a throttling signature. -/
def throttleOracle : Oracle :=
  fun _ _ => CallOutcome.failure "Error code: 429 - rate limit exceeded"

/-- An upstream that always fails with a non-throttling signature. -/
def authFailOracle : Oracle := fun _ _ => CallOutcome.failure "Invalid API Key"

/-- An upstream that always succeeds. -/
def okOracle : Oracle := fun _ _ => CallOutcome.success "hi"

/-- An environment with only `GROQ_API_KEY` set. -/
def envWithKey : String → String := fun v => if v = "GROQ_API_KEY" then "envkey" else ""

/-- An environment with nothing set. -/
def emptyEnv : String → String := fun _ => ""

/-- The pool state reached after acquiring the first `i` keys of `L` once
each on a fresh pool: no cooldowns, usage 1 on the first `i` keys and 0 on
the rest (invariant of the round-robin scenario). -/
def rrPool (L : List String) (i : Nat) : APIKeyPool :=
  { keys := L, cooldowns := fun _ => none,
    usage := fun k => if k ∈ L.take i then 1 else 0 }

/-! ## Theorems -/

/-- **C1** (code bug).  When every credential is cooling and the soonest
expiry is within 5 seconds, `get_key`'s `time.sleep` happens *inside*
`with self._lock:`: the event trace acquires the lock, sleeps while it is
still held, and then blocks forever re-acquiring the non-reentrant lock for
the recursive `self.get_key()` — contrary to the claim that the sleep
happens outside the lock followed by a fresh locked re-acquisition. -/
theorem getKey_sleeps_holding_lock :
    get_key poolOneCooling 0 =
      LockRes.deadlock
        [PEvent.lockAcq, PEvent.sleep 3, PEvent.lockAcq] poolOneCooling ∧
    lockHeldAfter [PEvent.lockAcq, PEvent.sleep 3, PEvent.lockAcq] 1 = true ∧
    lockHeldAfter [PEvent.lockAcq, PEvent.sleep 3, PEvent.lockAcq] 2 = true := by
  refine ⟨?_, by decide, by decide⟩
  rfl

/-- **C2** (code bug).  With two fresh credentials and every upstream call
failing with a throttling signature, `call_llm` does not perform N attempts
and raise the aggregate exhaustion error: after the first throttled attempt
it blocks forever inside `pool.mark_rate_limited` (which re-acquires the
already-held lock), having made exactly one attempt. -/
theorem callLlm_deadlocks_on_first_throttle :
    call_llm throttleOracle (freshPool ["k1", "k2"]) 0 = ExecResult.deadlock 1 ∧
    ∀ e p a, call_llm throttleOracle (freshPool ["k1", "k2"]) 0 ≠
      ExecResult.exhausted e p a := by
  have h : call_llm throttleOracle (freshPool ["k1", "k2"]) 0 = ExecResult.deadlock 1 := by
    rfl
  exact ⟨h, fun e p a hc => by rw [h] at hc; exact ExecResult.noConfusion hc⟩

/-- **C6** (code bug).  `release_throttled` (`mark_rate_limited`) does write
`cooldown_until = now + cooldown_seconds`, but it never returns: it blocks
forever re-acquiring the already-held non-reentrant lock to evaluate
`self.available_keys`, and never releases the lock — so no subsequent
`acquire()` can complete, and in particular none can return the credential
once the 60 seconds have elapsed. -/
theorem markRateLimited_never_returns (p : APIKeyPool) (key : String) (now cd : Time) :
    (∀ a p' tr, mark_rate_limited p key now cd ≠ LockRes.ok a p' tr) ∧
    ∃ p', mark_rate_limited p key now cd =
        LockRes.deadlock [PEvent.lockAcq, PEvent.lockAcq] p' ∧
      lockHeldAfter [PEvent.lockAcq, PEvent.lockAcq] 1 = true ∧
      p'.cooldowns key = some (now + cd) := by
  refine ⟨fun a p' tr h => LockRes.noConfusion h, ⟨_, rfl, by decide, by simp⟩⟩

/-- **C10**: `has_available_key` is true whenever the `GROQ_API_KEY`
environment variable is non-empty — even when every pooled credential is on
an unexpired cooldown — and with that variable empty it is true exactly when
at least one credential's cooldown has expired. -/
theorem hasAvailableKey_env_override :
    (∀ (p : APIKeyPool) (now : Time) (env : String → String),
        env "GROQ_API_KEY" ≠ "" → has_available_key p now env = true) ∧
    (∀ (p : APIKeyPool) (now : Time) (env : String → String),
        env "GROQ_API_KEY" = "" →
        (has_available_key p now env = true ↔ 0 < available_keys p now)) := by
  constructor
  · intro p now env h
    simp [has_available_key, h]
  · intro p now env h
    simp [has_available_key, h]

/-- Witness for C10 at a pool whose only key is cooling (`available_count`
is 0) with the variable set, and at the empty environment. -/
theorem hasAvailableKey_env_override_witness :
    (available_keys poolOneCooling 0 = 0 ∧
      has_available_key poolOneCooling 0 envWithKey = true) ∧
    (has_available_key poolOneCooling 0 emptyEnv = true ↔
      0 < available_keys poolOneCooling 0) :=
  ⟨⟨by decide, hasAvailableKey_env_override.1 poolOneCooling 0 envWithKey (by decide)⟩,
   hasAvailableKey_env_override.2 poolOneCooling 0 emptyEnv rfl⟩

/-- **C7**: `mark_success` on a credential with an unexpired future cooldown
clears it, so the credential is immediately available to a subsequent
`acquire()`; and calling `mark_success` twice in a row yields the same pool
state as calling it once. -/
theorem markSuccess_clears_and_idempotent :
    (∀ (p : APIKeyPool) (key : String) (now cd : Time),
        p.cooldowns key = some cd → now < cd → 0 ≤ now → key ∈ p.keys →
        (mark_success p key now).cooldowns key = none ∧
        key ∈ availList (mark_success p key now) now) ∧
    (∀ (p : APIKeyPool) (key : String) (t1 t2 : Time), t1 ≤ t2 →
        mark_success (mark_success p key t1) key t2 = mark_success p key t1) := by
  constructor
  · intro p key now cd hcd hlt hnow hmem
    have h1 : (mark_success p key now).cooldowns key = none := by
      simp [mark_success, hcd, hlt]
    have hkeys : (mark_success p key now).keys = p.keys := by
      simp [mark_success, hcd, hlt]
    refine ⟨h1, ?_⟩
    simp only [availList, List.mem_filter, hkeys]
    exact ⟨hmem, by simp [cdGet, h1, hnow]⟩
  · intro p key t1 t2 h12
    cases hc : p.cooldowns key with
    | none => simp [mark_success, hc]
    | some cd =>
      by_cases hlt : t1 < cd
      · have h1 : mark_success p key t1 =
            { p with cooldowns := fun k => if k = key then none else p.cooldowns k } := by
          simp [mark_success, hc, hlt]
        rw [h1]
        simp [mark_success]
      · have h1 : mark_success p key t1 = p := by
          simp [mark_success, hc, hlt]
        rw [h1]
        have hlt2 : ¬ t2 < cd := fun h => hlt (lt_of_le_of_lt h12 h)
        simp [mark_success, hc, hlt2]

/-- Witness for C7: the cooling key of `poolOneCooling` is cleared by
`mark_success` at `t = 0` and the second call is a no-op. -/
theorem markSuccess_clears_and_idempotent_witness :
    ((mark_success poolOneCooling "k1" 0).cooldowns "k1" = none ∧
      "k1" ∈ availList (mark_success poolOneCooling "k1" 0) 0) ∧
    mark_success (mark_success poolOneCooling "k1" 0) "k1" 1 =
      mark_success poolOneCooling "k1" 0 :=
  ⟨markSuccess_clears_and_idempotent.1 poolOneCooling "k1" 0 3 (by decide) (by decide)
      le_rfl (by decide),
   markSuccess_clears_and_idempotent.2 poolOneCooling "k1" 0 1 (by decide)⟩

/-- **C4**: a first-attempt upstream failure without a throttling signature
is propagated immediately by both executors: exactly one attempt, no
rotation to another credential, and the pool is not notified of any
cooldown (the cooldown map is unchanged; `get_key` only bumped the used
key's usage counter). -/
theorem nonThrottle_propagates_immediately
    (p : APIKeyPool) (now : Time) (oracle : Oracle) (env : String → String)
    (k : String) (ks : List String) (msg : String)
    (havail : availList p now = k :: ks)
    (horacle : oracle 0 (pymin p.usage k ks) = CallOutcome.failure msg)
    (hmsg : isThrottle msg = false) :
    ∃ p', call_llm oracle p now = ExecResult.raised msg p' 1 ∧
      call_llama env oracle p now = ExecResult.raised msg p' 1 ∧
      p'.cooldowns = p.cooldowns ∧ p'.keys = p.keys := by
  have hget : get_key p now =
      LockRes.ok (some (pymin p.usage k ks))
        { p with usage := fun k' =>
            if k' = pymin p.usage k ks then p.usage (pymin p.usage k ks) + 1
            else p.usage k' }
        [PEvent.lockAcq, PEvent.lockRel] := by
    unfold get_key
    rw [havail]
  have hfuel : max (total_keys p) 1 = (max (total_keys p) 1 - 1) + 1 := by omega
  let pb : APIKeyPool :=
    { p with usage := fun k' =>
        if k' = pymin p.usage k ks then p.usage (pymin p.usage k ks) + 1
        else p.usage k' }
  refine ⟨pb, ?_, ?_, rfl, rfl⟩
  · rw [call_llm, hfuel]
    simp only [call_llm_go]
    rw [hget]
    simp only [horacle, hmsg]
    simp
  · rw [call_llama, hfuel]
    simp only [call_llama_go]
    rw [hget]
    simp only [horacle, hmsg]
    simp

/-- Witness for C4: one fresh key, upstream failing with
`"Invalid API Key"` (no throttling signature). -/
theorem nonThrottle_propagates_immediately_witness :
    ∃ p', call_llm authFailOracle (freshPool ["k1"]) 0 =
        ExecResult.raised "Invalid API Key" p' 1 ∧
      call_llama emptyEnv authFailOracle (freshPool ["k1"]) 0 =
        ExecResult.raised "Invalid API Key" p' 1 ∧
      p'.cooldowns = (freshPool ["k1"]).cooldowns ∧
      p'.keys = (freshPool ["k1"]).keys :=
  nonThrottle_propagates_immediately (freshPool ["k1"]) 0 authFailOracle emptyEnv
    "k1" [] "Invalid API Key" (by decide) rfl (by decide)

/-- **C3** counterexample: with an empty pool but `GROQ_API_KEY` set in the
environment, `call_llama` does *not* stop and fail when the pool's acquire
returns nothing — it performs the upstream call with the environment key
and succeeds after one attempt (llama_analyzer.py:152-156). -/
theorem callLlama_env_fallback_counterexample :
    call_llama envWithKey okOracle (freshPool []) 0 =
      ExecResult.success "hi" (freshPool []) 1 ∧
    ∀ e p a, call_llama envWithKey okOracle (freshPool []) 0 ≠
      ExecResult.exhausted e p a := by
  have h : call_llama envWithKey okOracle (freshPool []) 0 =
      ExecResult.success "hi" (freshPool []) 1 := by rfl
  exact ⟨h, fun e p a hc => by rw [h] at hc; exact ExecResult.noConfusion hc⟩

/-- **C3 amended**: when the pool's acquire returns no credential,
`call_llm` stops attempting and raises the exhaustion error with no
upstream call performed; `call_llama` instead falls back to the
`GROQ_API_KEY` environment variable — it stops with the exhaustion error
only when that variable is empty, and otherwise performs the upstream call
with the environment key. -/
theorem acquire_none_executor_behavior
    (p : APIKeyPool) (now : Time) (oracle : Oracle) (env : String → String)
    (hget : get_key p now = LockRes.ok none p [PEvent.lockAcq, PEvent.lockRel]) :
    call_llm oracle p now = ExecResult.exhausted none p 0 ∧
    (env "GROQ_API_KEY" = "" →
      call_llama env oracle p now = ExecResult.exhausted none p 0) ∧
    (env "GROQ_API_KEY" ≠ "" →
      call_llama env oracle p now =
        match oracle 0 (env "GROQ_API_KEY") with
        | CallOutcome.success text =>
          ExecResult.success text (mark_success p (env "GROQ_API_KEY") now) 1
        | CallOutcome.failure msg =>
          if isThrottle msg then ExecResult.deadlock 1
          else ExecResult.raised msg p 1) := by
  have hfuel : max (total_keys p) 1 = (max (total_keys p) 1 - 1) + 1 := by omega
  refine ⟨?_, ?_, ?_⟩
  · rw [call_llm, hfuel]
    simp only [call_llm_go]
    rw [hget]
  · intro h
    rw [call_llama, hfuel]
    simp only [call_llama_go]
    rw [hget]
    simp [h]
  · intro h
    rw [call_llama, hfuel]
    simp only [call_llama_go]
    rw [hget]
    simp only [if_neg h]
    cases horacle : oracle 0 (env "GROQ_API_KEY") with
    | success text => simp [horacle]
    | failure msg =>
      by_cases ht : isThrottle msg
      · simp [horacle, ht, mark_rate_limited]
      · simp [horacle, ht]

/-- Witness for the amended C3: the empty pool with both environments. -/
theorem acquire_none_executor_behavior_witness :
    call_llm okOracle (freshPool []) 0 = ExecResult.exhausted none (freshPool []) 0 ∧
    call_llama emptyEnv okOracle (freshPool []) 0 =
      ExecResult.exhausted none (freshPool []) 0 ∧
    call_llama envWithKey okOracle (freshPool []) 0 =
      ExecResult.success "hi" (mark_success (freshPool []) "envkey" 0) 1 := by
  obtain ⟨h1, h2, -⟩ := acquire_none_executor_behavior (freshPool []) 0 okOracle emptyEnv rfl
  obtain ⟨-, -, h3⟩ := acquire_none_executor_behavior (freshPool []) 0 okOracle envWithKey rfl
  exact ⟨h1, h2 rfl, (h3 (by decide)).trans rfl⟩

/-- Python's `min` over `x :: xs` with key `f` returns a member with a
minimal key, and it is the *first* such member: scanning the list in order,
the first element whose key is `≤` the returned key is the returned element
itself. -/
lemma pymin_mem_le_first (f : String → Nat) :
    ∀ (xs : List String) (x : String),
      pymin f x xs ∈ x :: xs ∧
      (∀ y ∈ x :: xs, f (pymin f x xs) ≤ f y) ∧
      (x :: xs).find? (fun y => decide (f y ≤ f (pymin f x xs))) =
        some (pymin f x xs) := by
  intro xs
  induction xs with
  | nil =>
    intro x
    simp only [pymin, List.foldl_nil]
    refine ⟨List.mem_singleton_self x, ?_, ?_⟩
    · intro y hy
      rw [List.mem_singleton] at hy
      exact hy ▸ le_refl (f x)
    · simp
  | cons y ys ih =>
    intro x
    have hstep : pymin f x (y :: ys) = pymin f (if f y < f x then y else x) ys := rfl
    obtain ⟨ihm, ihle, ihf⟩ := ih (if f y < f x then y else x)
    by_cases hxy : f y < f x
    · rw [if_pos hxy] at ihm ihle ihf
      rw [hstep, if_pos hxy]
      have hmy : f (pymin f y ys) ≤ f y := ihle y (List.mem_cons_self y ys)
      refine ⟨List.mem_cons_of_mem x ihm, ?_, ?_⟩
      · intro z hz
        rcases List.mem_cons.mp hz with rfl | hz'
        · exact le_of_lt (lt_of_le_of_lt hmy hxy)
        · exact ihle z hz'
      · rw [List.find?_cons_of_neg _ (by simp; omega)]
        exact ihf
    · rw [if_neg hxy] at ihm ihle ihf
      rw [hstep, if_neg hxy]
      have hxle : f x ≤ f y := Nat.le_of_not_lt hxy
      have hmx : f (pymin f x ys) ≤ f x := ihle x (List.mem_cons_self x ys)
      refine ⟨?_, ?_, ?_⟩
      · rcases List.mem_cons.mp ihm with h' | h'
        · rw [h']
          exact List.mem_cons_self x (y :: ys)
        · exact List.mem_cons_of_mem x (List.mem_cons_of_mem y h')
      · intro z hz
        rcases List.mem_cons.mp hz with rfl | hz'
        · exact hmx
        rcases List.mem_cons.mp hz' with rfl | hz''
        · exact le_trans hmx hxle
        · exact ihle z (List.mem_cons_of_mem x hz'')
      · by_cases hxm : f x ≤ f (pymin f x ys)
        · have hpos1 : (x :: ys).find? (fun z => decide (f z ≤ f (pymin f x ys))) = some x :=
            List.find?_cons_of_pos ys (by simpa using hxm)
          have hx : x = pymin f x ys := by
            have h2 := hpos1.symm.trans ihf
            injection h2
          have hpos2 :
              (x :: y :: ys).find? (fun z => decide (f z ≤ f (pymin f x ys))) = some x :=
            List.find?_cons_of_pos (y :: ys) (by simpa using hxm)
          rw [hpos2]
          exact congrArg some hx
        · have hmlt : f (pymin f x ys) < f x := Nat.lt_of_not_le hxm
          have hneg1 : (x :: ys).find? (fun z => decide (f z ≤ f (pymin f x ys))) =
              ys.find? (fun z => decide (f z ≤ f (pymin f x ys))) :=
            List.find?_cons_of_neg ys (by simpa using hxm)
          have hneg2 : (x :: y :: ys).find? (fun z => decide (f z ≤ f (pymin f x ys))) =
              (y :: ys).find? (fun z => decide (f z ≤ f (pymin f x ys))) :=
            List.find?_cons_of_neg (y :: ys) (by simpa using hxm)
          have hneg3 : (y :: ys).find? (fun z => decide (f z ≤ f (pymin f x ys))) =
              ys.find? (fun z => decide (f z ≤ f (pymin f x ys))) :=
            List.find?_cons_of_neg ys (by simp; omega)
          rw [hneg2, hneg3, ← hneg1]
          exact ihf

/-- `find?` returns the element at the first index whose test is true. -/
lemma find?_eq_of_first {α : Type} (p : α → Bool) :
    ∀ (L : List α) (i : Nat) (hi : i < L.length),
      (∀ j (hj : j < i), p (L.get ⟨j, Nat.lt_trans hj hi⟩) = false) →
      p (L.get ⟨i, hi⟩) = true →
      L.find? p = some (L.get ⟨i, hi⟩) := by
  intro L
  induction L with
  | nil =>
    intro i hi
    exact absurd hi (by simp)
  | cons x xs ih =>
    intro i hi hprev hcur
    cases i with
    | zero => exact List.find?_cons_of_pos _ hcur
    | succ j =>
      have hx : p x = false := hprev 0 (Nat.succ_pos j)
      rw [List.find?_cons_of_neg _ (by simp [hx])]
      exact ih j (Nat.lt_of_succ_lt_succ hi)
        (fun j' hj' => hprev (j' + 1) (Nat.succ_lt_succ hj')) hcur

/-- The happy path of `get_key`: with at least one available key, it
returns `pymin` of the available list and bumps that key's usage count. -/
lemma getKey_spec (p : APIKeyPool) (now : Time) (k : String) (ks : List String)
    (havail : availList p now = k :: ks) :
    get_key p now =
      LockRes.ok (some (pymin p.usage k ks))
        { p with usage := fun k' =>
            if k' = pymin p.usage k ks then p.usage (pymin p.usage k ks) + 1
            else p.usage k' }
        [PEvent.lockAcq, PEvent.lockRel] := by
  unfold get_key
  rw [havail]

/-- All keys of an `rrPool` state are available (it has no cooldowns). -/
lemma rrPool_avail (L : List String) (now : Time) (hnow : 0 ≤ now) (i : Nat) :
    availList (rrPool L i) now = L := by
  rw [availList]
  apply List.filter_eq_self.mpr
  intro a _
  simp only [rrPool, cdGet, Option.getD_none, decide_eq_true_eq]
  exact hnow

/-- For `j < i`, the `j`-th key lies in `L.take i`. -/
lemma get_mem_take (L : List String) (i j : Nat) (hj : j < i) (hjL : j < L.length) :
    L.get ⟨j, hjL⟩ ∈ L.take i := by
  rw [List.mem_iff_getElem?]
  refine ⟨j, ?_⟩
  rw [List.getElem?_take_of_lt hj, List.getElem?_eq_getElem hjL]
  rfl

/-- In a duplicate-free list the `i`-th key does not lie in `L.take i`. -/
lemma get_not_mem_take (L : List String) (hnd : L.Nodup) (i : Nat) (hi : i < L.length) :
    L.get ⟨i, hi⟩ ∉ L.take i := by
  intro hmem
  rw [List.mem_iff_getElem] at hmem
  obtain ⟨j, hjlen, hj⟩ := hmem
  have hji : j < i :=
    lt_of_lt_of_le hjlen (by rw [List.length_take]; exact min_le_left _ _)
  simp only [List.getElem_take] at hj
  have hj2 : j = i := hnd.getElem_inj_iff.mp hj
  omega

/-- `rrPool L 0` is the freshly constructed pool. -/
lemma rrPool_zero (L : List String) : rrPool L 0 = freshPool L := by
  ext k
  · rfl
  · rfl
  · simp [rrPool, freshPool]

/-- The `get_key` step of the round-robin scenario: from `rrPool L i` the
pool hands out precisely the `i`-th key and moves to `rrPool L (i+1)`. -/
lemma rr_step (L : List String) (hnd : L.Nodup) (now : Time) (hnow : 0 ≤ now)
    (i : Nat) (hi : i < L.length) :
    get_key (rrPool L i) now =
      LockRes.ok (some (L.get ⟨i, hi⟩)) (rrPool L (i + 1))
        [PEvent.lockAcq, PEvent.lockRel] := by
  obtain ⟨x, xs, hL⟩ : ∃ x xs, L = x :: xs := by
    cases L with
    | nil => exact absurd hi (by simp)
    | cons a as => exact ⟨a, as, rfl⟩
  have havail : availList (rrPool L i) now = x :: xs := (rrPool_avail L now hnow i).trans hL
  obtain ⟨hm_mem, hm_le, hm_find⟩ := pymin_mem_le_first ((rrPool L i).usage) xs x
  have hgetmem : L.get ⟨i, hi⟩ ∈ x :: xs := by
    rw [← hL]
    exact List.get_mem L i hi
  have hfi : (rrPool L i).usage (L.get ⟨i, hi⟩) = 0 := by
    simp only [rrPool]
    rw [if_neg (get_not_mem_take L hnd i hi)]
  have hm0 : (rrPool L i).usage (pymin ((rrPool L i).usage) x xs) = 0 := by
    have h1 := hm_le (L.get ⟨i, hi⟩) hgetmem
    rw [hfi] at h1
    omega
  have hfind2 : L.find?
      (fun y => decide ((rrPool L i).usage y ≤
        (rrPool L i).usage (pymin ((rrPool L i).usage) x xs))) =
      some (L.get ⟨i, hi⟩) := by
    apply find?_eq_of_first
    · intro j hj
      have h1 : (rrPool L i).usage (L.get ⟨j, Nat.lt_trans hj hi⟩) = 1 := by
        simp only [rrPool]
        rw [if_pos (get_mem_take L i j hj (Nat.lt_trans hj hi))]
      rw [h1, hm0]
      simp
    · rw [hfi, hm0]
      simp
  have hbest : pymin ((rrPool L i).usage) x xs = L.get ⟨i, hi⟩ := by
    have h2 := hm_find
    rw [← hL] at h2
    have h3 := h2.symm.trans hfind2
    injection h3
  rw [getKey_spec (rrPool L i) now x xs havail, hbest]
  congr 1
  have hkeys : (rrPool L i).keys = (rrPool L (i + 1)).keys := rfl
  have hcool : (rrPool L i).cooldowns = (rrPool L (i + 1)).cooldowns := rfl
  have husage : (fun k' => if k' = L.get ⟨i, hi⟩
      then (rrPool L i).usage (L.get ⟨i, hi⟩) + 1 else (rrPool L i).usage k') =
      (rrPool L (i + 1)).usage := by
    funext kk
    by_cases hkk : kk = L.get ⟨i, hi⟩
    · have hmem : kk ∈ L.take (i + 1) := by
        rw [List.take_succ, List.mem_append, List.getElem?_eq_getElem hi]
        right
        simp [hkk]
      rw [if_pos hkk, hfi]
      show 0 + 1 = (rrPool L (i + 1)).usage kk
      simp only [rrPool]
      rw [if_pos hmem]
    · rw [if_neg hkk]
      show (rrPool L i).usage kk = (rrPool L (i + 1)).usage kk
      simp only [rrPool]
      by_cases hkt : kk ∈ L.take i
      · have h1 : kk ∈ L.take (i + 1) := by
          rw [List.take_succ, List.mem_append]
          exact Or.inl hkt
        rw [if_pos hkt, if_pos h1]
      · have h1 : kk ∉ L.take (i + 1) := by
          intro hmem2
          rw [List.take_succ, List.mem_append] at hmem2
          rcases hmem2 with h2 | h2
          · exact hkt h2
          · rw [List.getElem?_eq_getElem hi] at h2
            simp only [Option.toList_some, List.mem_singleton] at h2
            exact hkk h2
        rw [if_neg hkt, if_neg h1]
  calc ({ rrPool L i with usage := fun k' => if k' = L.get ⟨i, hi⟩
          then (rrPool L i).usage (L.get ⟨i, hi⟩) + 1 else (rrPool L i).usage k' } :
        APIKeyPool)
      = { keys := (rrPool L (i + 1)).keys, cooldowns := (rrPool L (i + 1)).cooldowns,
          usage := (rrPool L (i + 1)).usage } := by
        rw [← hkeys, ← hcool, ← husage]
    _ = rrPool L (i + 1) := rfl

/-- The round-robin run: starting at index `i` with `i + n = |L|`, the `n`
acquisitions return the remaining keys of `L` in order, each with prior
usage count 0. -/
lemma acquireSeq_rr (L : List String) (hnd : L.Nodup) (now : Time) (hnow : 0 ≤ now) :
    ∀ (n i : Nat), i + n = L.length →
      (acquireSeq now n (rrPool L i)).1 = (L.drop i).map (fun k => (k, 0)) := by
  intro n
  induction n with
  | zero =>
    intro i hi
    have hdrop : L.drop i = [] := by
      have h0 : i = L.length := by omega
      rw [h0]
      exact List.drop_length L
    rw [hdrop]
    simp [acquireSeq]
  | succ m ih =>
    intro i hi
    have hilt : i < L.length := by omega
    have hstep := rr_step L hnd now hnow i hilt
    have hfi0 : (rrPool L i).usage (L.get ⟨i, hilt⟩) = 0 := by
      simp only [rrPool]
      rw [if_neg (get_not_mem_take L hnd i hilt)]
    have hdrop : L.drop i = L.get ⟨i, hilt⟩ :: L.drop (i + 1) :=
      List.drop_eq_getElem_cons hilt
    simp only [acquireSeq]
    rw [hstep]
    simp only [hfi0]
    rw [hdrop, List.map_cons]
    exact congrArg (List.cons _) (ih (i + 1) (by omega))

/-- A constant-zero list is trivially nondecreasing. -/
lemma chain'_map_const_zero (L : List String) :
    List.Chain' (· ≤ ·) (L.map (fun _ => (0 : Nat))) := by
  induction L with
  | nil => simp
  | cons x xs ih =>
    cases xs with
    | nil => simp
    | cons y ys =>
      rw [List.map_cons, List.map_cons, List.chain'_cons]
      refine ⟨le_refl 0, ?_⟩
      rw [List.map_cons] at ih
      exact ih

/-- **C5**: with at least one available credential, `acquire` returns the
available credential with the lowest usage count — the *first* such, by
stable iteration order — and increments exactly that credential's counter;
consequently, on a freshly constructed pool of N ≥ 1 distinct keys, N
acquisitions in isolation return the N keys in order (all distinct), with
prior usage counts all zero, a nondecreasing sequence. -/
theorem acquire_least_used_and_round_robin :
    (∀ (p : APIKeyPool) (now : Time) (k : String) (ks : List String),
        availList p now = k :: ks →
        ∃ best p',
          get_key p now = LockRes.ok (some best) p' [PEvent.lockAcq, PEvent.lockRel] ∧
          best ∈ availList p now ∧
          (∀ y ∈ availList p now, p.usage best ≤ p.usage y) ∧
          (availList p now).find? (fun y => decide (p.usage y ≤ p.usage best)) =
            some best ∧
          p'.usage best = p.usage best + 1 ∧
          (∀ y, y ≠ best → p'.usage y = p.usage y) ∧
          p'.cooldowns = p.cooldowns ∧ p'.keys = p.keys) ∧
    (∀ (L : List String) (now : Time), L.Nodup → 0 ≤ now → 1 ≤ L.length →
        (acquireSeq now L.length (freshPool L)).1 = L.map (fun k => (k, 0)) ∧
        ((acquireSeq now L.length (freshPool L)).1.map Prod.fst).Nodup ∧
        List.Chain' (· ≤ ·) ((acquireSeq now L.length (freshPool L)).1.map Prod.snd)) := by
  constructor
  · intro p now k ks havail
    obtain ⟨hm_mem, hm_le, hm_find⟩ := pymin_mem_le_first p.usage ks k
    refine ⟨pymin p.usage k ks, _,
      getKey_spec p now k ks havail, ?_, ?_, ?_, ?_, ?_, rfl, rfl⟩
    · rw [havail]
      exact hm_mem
    · intro y hy
      rw [havail] at hy
      exact hm_le y hy
    · rw [havail]
      exact hm_find
    · simp
    · intro y hy
      simp [hy]
  · intro L now hnd hnow hlen
    have h1 : (acquireSeq now L.length (freshPool L)).1 = L.map (fun k => (k, 0)) := by
      have h0 := acquireSeq_rr L hnd now hnow L.length 0 (by omega)
      rw [rrPool_zero] at h0
      rw [h0, List.drop_zero]
    refine ⟨h1, ?_, ?_⟩
    · rw [h1, List.map_map]
      have hcomp : (Prod.fst ∘ fun k : String => (k, (0 : Nat))) = id := rfl
      rw [hcomp, List.map_id]
      exact hnd
    · rw [h1, List.map_map]
      exact chain'_map_const_zero L

/-- Witness for C5 at a fresh two-key pool. -/
theorem acquire_least_used_and_round_robin_witness :
    (∃ best p',
        get_key (freshPool ["a", "b"]) 0 =
          LockRes.ok (some best) p' [PEvent.lockAcq, PEvent.lockRel] ∧
        best ∈ availList (freshPool ["a", "b"]) 0 ∧
        (∀ y ∈ availList (freshPool ["a", "b"]) 0,
          (freshPool ["a", "b"]).usage best ≤ (freshPool ["a", "b"]).usage y) ∧
        (availList (freshPool ["a", "b"]) 0).find?
          (fun y => decide ((freshPool ["a", "b"]).usage y ≤
            (freshPool ["a", "b"]).usage best)) = some best ∧
        p'.usage best = (freshPool ["a", "b"]).usage best + 1 ∧
        (∀ y, y ≠ best → p'.usage y = (freshPool ["a", "b"]).usage y) ∧
        p'.cooldowns = (freshPool ["a", "b"]).cooldowns ∧
        p'.keys = (freshPool ["a", "b"]).keys) ∧
    ((acquireSeq 0 2 (freshPool ["a", "b"])).1 = [("a", 0), ("b", 0)] ∧
      ((acquireSeq 0 2 (freshPool ["a", "b"])).1.map Prod.fst).Nodup ∧
      List.Chain' (· ≤ ·) ((acquireSeq 0 2 (freshPool ["a", "b"])).1.map Prod.snd)) := by
  constructor
  · exact acquire_least_used_and_round_robin.1 (freshPool ["a", "b"]) 0 "a" ["b"]
      (by decide)
  · have h := acquire_least_used_and_round_robin.2 ["a", "b"] 0 (by decide) (by decide)
      (by decide)
    simpa using h

/-! ### Decoder toolkit -/

/-- `dropWhile` is idempotent. -/
lemma dropWhile_idem (p : Char → Bool) (l : List Char) :
    (l.dropWhile p).dropWhile p = l.dropWhile p := by
  induction l with
  | nil => rfl
  | cons x xs ih =>
    by_cases h : p x
    · simp [List.dropWhile_cons, h, ih]
    · simp [List.dropWhile_cons, h]

/-- A non-dropped final element survives `dropWhile` and is appended
whole. -/
lemma dropWhile_append_singleton (p : Char → Bool) (a : Char) (h : p a = false)
    (xs : List Char) : (xs ++ [a]).dropWhile p = xs.dropWhile p ++ [a] := by
  induction xs with
  | nil => simp [List.dropWhile_cons, h]
  | cons x xs ih =>
    by_cases hx : p x
    · simp [List.dropWhile_cons, hx, ih]
    · simp [List.dropWhile_cons, hx]

/-- `dropWhile` jumps over an all-dropped prefix. -/
lemma dropWhile_append_of_all (p : Char → Bool) (wsl : List Char)
    (h : ∀ c ∈ wsl, p c = true) (x : List Char) :
    (wsl ++ x).dropWhile p = x.dropWhile p := by
  induction wsl with
  | nil => rfl
  | cons c cs ih =>
    rw [List.cons_append, List.dropWhile_cons, if_pos (h c (List.mem_cons_self c cs))]
    exact ih (fun c hc => h c (List.mem_cons_of_mem _ hc))

/-- The head of a non-empty `dropWhile` result fails the test. -/
lemma dropWhile_head_not (p : Char → Bool) (l : List Char) :
    l.dropWhile p = [] ∨
      ∃ c cs, l.dropWhile p = c :: cs ∧ p c = false := by
  induction l with
  | nil => exact Or.inl rfl
  | cons x xs ih =>
    by_cases h : p x
    · rw [List.dropWhile_cons, if_pos h]
      exact ih
    · right
      exact ⟨x, xs, by rw [List.dropWhile_cons, if_neg h], by simp [h]⟩

/-- `dropWhile` never lengthens a list. -/
lemma length_dropWhile_le' (p : Char → Bool) (l : List Char) :
    (l.dropWhile p).length ≤ l.length := by
  induction l with
  | nil => simp
  | cons x xs ih =>
    by_cases h : p x
    · rw [List.dropWhile_cons, if_pos h]
      exact le_trans ih (by simp)
    · rw [List.dropWhile_cons, if_neg (by simp [h])]

/-- `strip()` of a text that is `d` surrounded by whitespace, where `d`
neither starts nor ends with whitespace, is `d`. -/
lemma trimChars_wrap (wsl wsr d : List Char)
    (hl : ∀ c ∈ wsl, isWsChar c = true) (hr : ∀ c ∈ wsr, isWsChar c = true)
    (hd : d.dropWhile isWsChar = d)
    (hdr : d.reverse.dropWhile isWsChar = d.reverse) :
    trimChars (wsl ++ d ++ wsr) = d := by
  unfold trimChars
  rw [List.append_assoc, dropWhile_append_of_all _ wsl hl]
  cases d with
  | nil =>
    have h0 : wsr.dropWhile isWsChar = [] := by
      have h1 := dropWhile_append_of_all isWsChar wsr hr []
      simpa using h1
    rw [List.nil_append, h0]
    rfl
  | cons c cs =>
    have hc : isWsChar c = false := by
      by_contra hcc
      have hcc' : isWsChar c = true := by
        cases h2 : isWsChar c
        · exact absurd h2 hcc
        · rfl
      rw [List.dropWhile_cons, if_pos hcc'] at hd
      have hlen := congrArg List.length hd
      have hle := length_dropWhile_le' isWsChar cs
      simp at hlen
      omega
    rw [List.cons_append, List.dropWhile_cons, if_neg (by simp [hc])]
    rw [← List.cons_append, List.reverse_append, List.reverse_cons]
    rw [dropWhile_append_of_all _ wsr.reverse
      (fun x hx => hr x (List.mem_reverse.mp hx)), ← List.reverse_cons, hdr]
    simp

/-- `strip()` is idempotent. -/
lemma trimChars_idem (l : List Char) : trimChars (trimChars l) = trimChars l := by
  rcases dropWhile_head_not isWsChar l with hA | ⟨a, as, hA, ha⟩
  · have h0 : trimChars l = [] := by
      unfold trimChars
      rw [hA]
      simp
    rw [h0]
    rfl
  · have h1 : trimChars l = a :: ((as.reverse.dropWhile isWsChar).reverse) := by
      unfold trimChars
      rw [hA, List.reverse_cons, dropWhile_append_singleton _ a (by simp [ha])]
      simp
    have h2 : trimChars (trimChars l) = trimChars ([] ++ trimChars l ++ []) := by
      simp
    rw [h2]
    apply trimChars_wrap
    · intro c hc
      exact absurd hc (List.not_mem_nil c)
    · intro c hc
      exact absurd hc (List.not_mem_nil c)
    · rw [h1, List.dropWhile_cons, if_neg (by simp [ha])]
    · rw [h1, List.reverse_cons, dropWhile_append_singleton _ a (by simp [ha]),
        List.reverse_reverse, dropWhile_idem]

/-- A true `leadsWith` for a longer pattern implies it for a prefix of the
pattern. -/
lemma leadsWith_append (p q t : List Char) (h : leadsWith (p ++ q) t = true) :
    leadsWith p t = true := by
  induction p generalizing t with
  | nil => rfl
  | cons c cs ih =>
    cases t with
    | nil => exact absurd h (by simp [leadsWith])
    | cons d ds =>
      rw [List.cons_append, leadsWith, Bool.and_eq_true] at h
      rw [leadsWith, Bool.and_eq_true]
      exact ⟨h.1, ih ds h.2⟩

/-- String-literal scan: the characters of a `"`-free, `\`-free key are
consumed up to the closing quote. -/
lemma takeStr_append (k : List Char)
    (hk : ∀ c ∈ k, (c = '"' → False) ∧ (c = '\\' → False)) :
    ∀ (acc rest : List Char),
      takeStr (k ++ '"' :: rest) acc = some (acc.reverse ++ k, rest) := by
  induction k with
  | nil =>
    intro acc rest
    simp [takeStr]
  | cons c cs ih =>
    intro acc rest
    have hc := hk c (List.mem_cons_self c cs)
    rw [List.cons_append, takeStr, if_neg hc.1, if_neg hc.2]
    rw [ih (fun x hx => hk x (List.mem_cons_of_mem _ hx)) (c :: acc) rest]
    simp

/-- A whole string literal, in cons-normalized form. -/
lemma parseStrLit_norm (k : List Char)
    (hk : ∀ c ∈ k, (c = '"' → False) ∧ (c = '\\' → False)) (rest : List Char) :
    parseStrLit ('"' :: (k ++ '"' :: rest)) = some (k, rest) := by
  show takeStr (k ++ '"' :: rest) [] = some (k, rest)
  rw [takeStr_append k hk [] rest]
  rfl

/-- Left strip of a text headed by a non-whitespace character. -/
lemma trimL_cons_nonws (c : Char) (l : List Char) (h : isWsChar c = false) :
    trimL (c :: l) = c :: l := by
  rw [trimL, List.dropWhile_cons, if_neg (by simp [h])]

/-- Left strip steps over a whitespace head. -/
lemma trimL_cons_ws (c : Char) (l : List Char) (h : isWsChar c = true) :
    trimL (c :: l) = trimL l := by
  rw [trimL, trimL, List.dropWhile_cons, if_pos h]

/-- The rendered body of a non-empty mapping starts with a quote, so a left
strip leaves it (and anything appended) unchanged. -/
lemma trimL_body_append (kv : String × String) (rest : List (String × String))
    (z : List Char) :
    trimL (bodyChars (kv :: rest) ++ z) = bodyChars (kv :: rest) ++ z := by
  cases rest with
  | nil =>
    show trimL (itemChars kv ++ z) = itemChars kv ++ z
    simp only [itemChars, List.cons_append]
    exact trimL_cons_nonws _ _ (by decide)
  | cons y2 ys2 =>
    show trimL ((itemChars kv ++ ',' :: ' ' :: bodyChars (y2 :: ys2)) ++ z) =
      (itemChars kv ++ ',' :: ' ' :: bodyChars (y2 :: ys2)) ++ z
    simp only [itemChars, List.cons_append, List.append_assoc]
    exact trimL_cons_nonws _ _ (by decide)

/-- `goodStr` unpacked to per-character facts. -/
lemma goodStr_chars {s : String} (h : goodStr s = true) :
    ∀ c ∈ s.data, (c = '"' → False) ∧ (c = '\\' → False) := by
  intro c hc
  rw [goodStr, List.all_eq_true] at h
  have h2 := h c hc
  constructor
  · intro he
    rw [he] at h2
    simp at h2
  · intro he
    rw [he] at h2
    simp at h2

/-- The item loop of the `json.loads` model inverts the rendered body of a
non-empty mapping, accumulating onto `acc`. -/
lemma parseItems_dumps :
    ∀ (m acc : List (String × String)) (fuel : Nat),
      (∀ kv ∈ m, goodStr kv.1 = true ∧ goodStr kv.2 = true) →
      m.length ≤ fuel → m ≠ [] →
      parseItems fuel (bodyChars m ++ ['}']) acc = some (acc ++ m) := by
  intro m
  induction m with
  | nil =>
    intro acc fuel _ _ hne
    exact absurd rfl hne
  | cons x xs ih =>
    intro acc fuel hgood hfuel _
    have hlen1 : (x :: xs).length = xs.length + 1 := by simp
    obtain ⟨f', rfl⟩ : ∃ f', fuel = f' + 1 := ⟨fuel - 1, by omega⟩
    have hgx := hgood x (List.mem_cons_self x xs)
    have hk1 := goodStr_chars hgx.1
    have hk2 := goodStr_chars hgx.2
    cases xs with
    | nil =>
      have hl : bodyChars [x] ++ ['}'] =
          '"' :: (x.1.data ++ '"' ::
            (':' :: ' ' :: '"' :: (x.2.data ++ '"' :: ['}']))) := by
        simp [bodyChars, itemChars]
      have h1 : parseStrLit (bodyChars [x] ++ ['}']) =
          some (x.1.data, ':' :: ' ' :: '"' :: (x.2.data ++ '"' :: ['}'])) := by
        rw [hl]
        exact parseStrLit_norm x.1.data hk1 _
      have h2 : trimL (':' :: ' ' :: '"' :: (x.2.data ++ '"' :: ['}'])) =
          ':' :: ' ' :: '"' :: (x.2.data ++ '"' :: ['}']) :=
        trimL_cons_nonws _ _ (by decide)
      have h3 : trimL (' ' :: '"' :: (x.2.data ++ '"' :: ['}'])) =
          '"' :: (x.2.data ++ '"' :: ['}']) := by
        rw [trimL_cons_ws _ _ (by decide)]
        exact trimL_cons_nonws _ _ (by decide)
      have h4 : parseStrLit ('"' :: (x.2.data ++ '"' :: ['}'])) =
          some (x.2.data, ['}']) := parseStrLit_norm x.2.data hk2 _
      have h5 : trimL (['}'] : List Char) = ['}'] := trimL_cons_nonws _ _ (by decide)
      simp only [parseItems, h1, h2, h3, h4, h5]
      rfl
    | cons y ys =>
      have hl : bodyChars (x :: y :: ys) ++ ['}'] =
          '"' :: (x.1.data ++ '"' ::
            (':' :: ' ' :: '"' :: (x.2.data ++ '"' ::
              (',' :: ' ' :: (bodyChars (y :: ys) ++ ['}']))))) := by
        simp [bodyChars, itemChars]
      have h1 : parseStrLit (bodyChars (x :: y :: ys) ++ ['}']) =
          some (x.1.data, ':' :: ' ' :: '"' :: (x.2.data ++ '"' ::
            (',' :: ' ' :: (bodyChars (y :: ys) ++ ['}'])))) := by
        rw [hl]
        exact parseStrLit_norm x.1.data hk1 _
      have h2 : trimL (':' :: ' ' :: '"' :: (x.2.data ++ '"' ::
          (',' :: ' ' :: (bodyChars (y :: ys) ++ ['}'])))) =
          ':' :: ' ' :: '"' :: (x.2.data ++ '"' ::
            (',' :: ' ' :: (bodyChars (y :: ys) ++ ['}']))) :=
        trimL_cons_nonws _ _ (by decide)
      have h3 : trimL (' ' :: '"' :: (x.2.data ++ '"' ::
          (',' :: ' ' :: (bodyChars (y :: ys) ++ ['}'])))) =
          '"' :: (x.2.data ++ '"' :: (',' :: ' ' :: (bodyChars (y :: ys) ++ ['}']))) := by
        rw [trimL_cons_ws _ _ (by decide)]
        exact trimL_cons_nonws _ _ (by decide)
      have h4 : parseStrLit ('"' :: (x.2.data ++ '"' ::
          (',' :: ' ' :: (bodyChars (y :: ys) ++ ['}'])))) =
          some (x.2.data, ',' :: ' ' :: (bodyChars (y :: ys) ++ ['}'])) :=
        parseStrLit_norm x.2.data hk2 _
      have h5 : trimL (',' :: ' ' :: (bodyChars (y :: ys) ++ ['}'])) =
          ',' :: ' ' :: (bodyChars (y :: ys) ++ ['}']) :=
        trimL_cons_nonws _ _ (by decide)
      have h6 : trimL (' ' :: (bodyChars (y :: ys) ++ ['}'])) =
          bodyChars (y :: ys) ++ ['}'] := by
        rw [trimL_cons_ws _ _ (by decide)]
        exact trimL_body_append y ys ['}']
      have hih := ih (acc ++ [(String.mk x.1.data, String.mk x.2.data)]) f'
        (fun kv hkv => hgood kv (List.mem_cons_of_mem _ hkv))
        (by
          have h9 : (x :: y :: ys).length = ys.length + 2 := by simp
          have h10 : (y :: ys).length = ys.length + 1 := by simp
          omega) (by simp)
      simp only [parseItems, h1, h2, h3, h4, h5, h6]
      rw [hih]
      show some ((acc ++ [x]) ++ (y :: ys)) = some (acc ++ x :: y :: ys)
      rw [List.append_assoc]
      rfl

/-- The length of a rendered non-empty body dominates the item count. -/
lemma bodyChars_length :
    ∀ (m : List (String × String)), m ≠ [] → m.length ≤ (bodyChars m).length + 1 := by
  intro m
  induction m with
  | nil =>
    intro h
    exact absurd rfl h
  | cons x xs ih =>
    intro _
    cases xs with
    | nil => simp
    | cons y ys =>
      have h2 := ih (by simp)
      have h3 : bodyChars (x :: y :: ys) =
          itemChars x ++ ',' :: ' ' :: bodyChars (y :: ys) := rfl
      rw [h3]
      simp only [List.length_append, List.length_cons] at h2 ⊢
      omega

/-- The rendered mapping in cons form: it starts with `{`. -/
lemma dumps_shape (m : List (String × String)) :
    json_dumps_chars m = '{' :: (bodyChars m ++ ['}']) := by
  simp [json_dumps_chars]

/-- The rendered mapping reversed: it ends with `}`. -/
lemma dumps_reverse_shape (m : List (String × String)) :
    (json_dumps_chars m).reverse = '}' :: ((bodyChars m).reverse ++ ['{']) := by
  simp [json_dumps_chars]

/-- The rendered mapping does not start with whitespace. -/
lemma dumps_dropWhile_fix (m : List (String × String)) :
    (json_dumps_chars m).dropWhile isWsChar = json_dumps_chars m := by
  rw [dumps_shape, List.dropWhile_cons, if_neg (by decide)]

/-- The rendered mapping does not end with whitespace. -/
lemma dumps_reverse_dropWhile_fix (m : List (String × String)) :
    (json_dumps_chars m).reverse.dropWhile isWsChar = (json_dumps_chars m).reverse := by
  rw [dumps_reverse_shape, List.dropWhile_cons, if_neg (by decide)]

/-- `strip()` leaves the rendered mapping unchanged. -/
lemma dumps_trimChars (m : List (String × String)) :
    trimChars (json_dumps_chars m) = json_dumps_chars m := by
  have h := trimChars_wrap [] [] (json_dumps_chars m)
    (fun c hc => absurd hc (List.not_mem_nil c))
    (fun c hc => absurd hc (List.not_mem_nil c))
    (dumps_dropWhile_fix m) (dumps_reverse_dropWhile_fix m)
  simpa using h

/-- The `json.loads` model inverts the `json.dumps` model. -/
lemma loads_dumps (m : List (String × String))
    (hgood : ∀ kv ∈ m, goodStr kv.1 = true ∧ goodStr kv.2 = true) :
    json_loads_chars (json_dumps_chars m) = some m := by
  have htrim : trimChars (json_dumps_chars m) = json_dumps_chars m :=
    dumps_trimChars m
  cases m with
  | nil =>
    rw [json_loads_chars, htrim]
    rfl
  | cons x xs =>
    rw [json_loads_chars, htrim]
    rw [dumps_shape]
    have hbody : ∃ t, bodyChars (x :: xs) ++ ['}'] = '"' :: t := by
      cases xs with
      | nil =>
        exact ⟨x.1.data ++ '"' :: (':' :: ' ' :: '"' :: (x.2.data ++ '"' :: ['}'])),
          by simp [bodyChars, itemChars]⟩
      | cons y ys =>
        exact ⟨x.1.data ++ '"' :: (':' :: ' ' :: '"' :: (x.2.data ++ '"' ::
          (',' :: ' ' :: (bodyChars (y :: ys) ++ ['}'])))),
          by simp [bodyChars, itemChars]⟩
    obtain ⟨t, ht⟩ := hbody
    have htrimL : trimL (bodyChars (x :: xs) ++ ['}']) = bodyChars (x :: xs) ++ ['}'] :=
      trimL_body_append x xs ['}']
    have hfuel : (x :: xs).length ≤ (bodyChars (x :: xs) ++ ['}']).length := by
      have h2 := bodyChars_length (x :: xs) (by simp)
      simp only [List.length_append, List.length_cons, List.length_nil] at h2 ⊢
      omega
    show (match trimL (bodyChars (x :: xs) ++ ['}']) with
        | '}' :: r2 => if trimL r2 = [] then some ([] : List (String × String)) else none
        | r' => parseItems r'.length r' []) = some (x :: xs)
    rw [htrimL, ht]
    show parseItems ('"' :: t).length ('"' :: t) [] = some (x :: xs)
    rw [← ht]
    rw [parseItems_dumps (x :: xs) [] _ hgood hfuel (by simp)]
    rfl

/-- The head of a list fixed by `dropWhile` fails the test. -/
lemma head_false_of_dropWhile_fix (p : Char → Bool) (c : Char) (cs : List Char)
    (h : (c :: cs).dropWhile p = c :: cs) : p c = false := by
  by_contra hcc
  have hcc' : p c = true := by
    cases h2 : p c
    · exact absurd h2 hcc
    · rfl
  rw [List.dropWhile_cons, if_pos hcc'] at h
  have hlen := congrArg List.length h
  have hle := length_dropWhile_le' p cs
  simp at hlen
  omega

/-- A `dropWhile`-fixed non-empty prefix shields anything appended. -/
lemma dropWhile_fix_append (p : Char → Bool) (a x : List Char)
    (ha : a.dropWhile p = a) (hne : a ≠ []) :
    (a ++ x).dropWhile p = a ++ x := by
  cases a with
  | nil => exact absurd rfl hne
  | cons c cs =>
    have hc := head_false_of_dropWhile_fix p c cs ha
    rw [List.cons_append, List.dropWhile_cons, if_neg (by simp [hc])]

/-- A pattern heads any extension of itself. -/
lemma leadsWith_self_append (p x : List Char) : leadsWith p (p ++ x) = true := by
  induction p with
  | nil => rfl
  | cons c cs ih =>
    rw [List.cons_append, leadsWith, ih]
    simp

/-- A pattern trails any text that ends with it. -/
lemma trailsWith_append_self (p x : List Char) : trailsWith p (x ++ p) = true := by
  rw [trailsWith, List.reverse_append]
  exact leadsWith_self_append _ _

/-- Fence stripping of a `json`-tagged fence around a whitespace-free-edged
payload recovers the payload. -/
lemma stripFence_fenceWrap_json (d : List Char)
    (hdd : d.dropWhile isWsChar = d)
    (hddr : d.reverse.dropWhile isWsChar = d.reverse) :
    stripFence (fenceWrap "json" d) = d := by
  have hjoin : ("```".data ++ "json".data : List Char) = "```json".data := by decide
  have htext : fenceWrap "json" d =
      "```json".data ++ ('\n' :: (d ++ '\n' :: "```".data)) := by
    rw [fenceWrap, ← hjoin]
    simp [List.append_assoc]
  have htext2 : fenceWrap "json" d =
      ("```json".data ++ ('\n' :: (d ++ ['\n']))) ++ "```".data := by
    rw [htext]
    simp [List.append_assoc]
  have hfix1 : (fenceWrap "json" d).dropWhile isWsChar = fenceWrap "json" d := by
    rw [htext]
    exact dropWhile_fix_append _ _ _ (by decide) (by decide)
  have hfix2 : (fenceWrap "json" d).reverse.dropWhile isWsChar =
      (fenceWrap "json" d).reverse := by
    rw [htext2, List.reverse_append]
    exact dropWhile_fix_append _ _ _ (by decide) (by decide)
  have htrim : trimChars (fenceWrap "json" d) = fenceWrap "json" d := by
    have h := trimChars_wrap [] [] (fenceWrap "json" d)
      (fun c hc => absurd hc (List.not_mem_nil c))
      (fun c hc => absurd hc (List.not_mem_nil c)) hfix1 hfix2
    simpa using h
  have hdrop : ("```json".data ++ ('\n' :: (d ++ '\n' :: "```".data))).drop 7 =
      '\n' :: (d ++ '\n' :: "```".data) :=
    List.drop_left' (by decide)
  have hW2 : ('\n' :: (d ++ '\n' :: "```".data) : List Char) =
      ('\n' :: (d ++ ['\n'])) ++ "```".data := by
    simp [List.append_assoc]
  have htake : ((('\n' :: (d ++ ['\n'])) ++ "```".data).take
      ((('\n' :: (d ++ ['\n'])) ++ "```".data).length - 3)) = '\n' :: (d ++ ['\n']) := by
    have hlen : (('\n' :: (d ++ ['\n'])) ++ "```".data).length =
        ('\n' :: (d ++ ['\n'])).length + 3 := by
      rw [List.length_append]
      rfl
    rw [hlen]
    have h2 : ('\n' :: (d ++ ['\n'])).length + 3 - 3 = ('\n' :: (d ++ ['\n'])).length := by
      omega
    rw [h2, List.take_left]
  have hfin : trimChars ('\n' :: (d ++ ['\n'])) = d := by
    have h := trimChars_wrap ['\n'] ['\n'] d
      (by
        intro c hc
        rw [List.mem_singleton] at hc
        rw [hc]
        decide)
      (by
        intro c hc
        rw [List.mem_singleton] at hc
        rw [hc]
        decide)
      hdd hddr
    simpa using h
  simp only [stripFence]
  rw [htrim, htext, leadsWith_self_append "```json".data _]
  simp only [if_true]
  rw [hdrop, hW2, trailsWith_append_self]
  simp only [if_true]
  rw [htake, hfin]

/-- Fence stripping of an untagged fence around a whitespace-free-edged
payload that does not start with `json`'s first letter recovers the
payload. -/
lemma stripFence_fenceWrap_bare (d : List Char)
    (hdd : d.dropWhile isWsChar = d)
    (hddr : d.reverse.dropWhile isWsChar = d.reverse) :
    stripFence (fenceWrap "" d) = d := by
  have htext : fenceWrap "" d = "```".data ++ ('\n' :: (d ++ '\n' :: "```".data)) := by
    rw [fenceWrap]
    simp
  have htext2 : fenceWrap "" d =
      ("```".data ++ ('\n' :: (d ++ ['\n']))) ++ "```".data := by
    rw [htext]
    simp [List.append_assoc]
  have hfix1 : (fenceWrap "" d).dropWhile isWsChar = fenceWrap "" d := by
    rw [htext]
    exact dropWhile_fix_append _ _ _ (by decide) (by decide)
  have hfix2 : (fenceWrap "" d).reverse.dropWhile isWsChar =
      (fenceWrap "" d).reverse := by
    rw [htext2, List.reverse_append]
    exact dropWhile_fix_append _ _ _ (by decide) (by decide)
  have htrim : trimChars (fenceWrap "" d) = fenceWrap "" d := by
    have h := trimChars_wrap [] [] (fenceWrap "" d)
      (fun c hc => absurd hc (List.not_mem_nil c))
      (fun c hc => absurd hc (List.not_mem_nil c)) hfix1 hfix2
    simpa using h
  have hjson : leadsWith "```json".data ("```".data ++ ('\n' :: (d ++ '\n' :: "```".data))) =
      false := rfl
  have hdrop : ("```".data ++ ('\n' :: (d ++ '\n' :: "```".data))).drop 3 =
      '\n' :: (d ++ '\n' :: "```".data) :=
    List.drop_left' (by decide)
  have hW2 : ('\n' :: (d ++ '\n' :: "```".data) : List Char) =
      ('\n' :: (d ++ ['\n'])) ++ "```".data := by
    simp [List.append_assoc]
  have htake : ((('\n' :: (d ++ ['\n'])) ++ "```".data).take
      ((('\n' :: (d ++ ['\n'])) ++ "```".data).length - 3)) = '\n' :: (d ++ ['\n']) := by
    have hlen : (('\n' :: (d ++ ['\n'])) ++ "```".data).length =
        ('\n' :: (d ++ ['\n'])).length + 3 := by
      rw [List.length_append]
      rfl
    rw [hlen]
    have h2 : ('\n' :: (d ++ ['\n'])).length + 3 - 3 = ('\n' :: (d ++ ['\n'])).length := by
      omega
    rw [h2, List.take_left]
  have hfin : trimChars ('\n' :: (d ++ ['\n'])) = d := by
    have h := trimChars_wrap ['\n'] ['\n'] d
      (by
        intro c hc
        rw [List.mem_singleton] at hc
        rw [hc]
        decide)
      (by
        intro c hc
        rw [List.mem_singleton] at hc
        rw [hc]
        decide)
      hdd hddr
    simpa using h
  simp only [stripFence]
  rw [htrim, htext, hjson]
  simp only [Bool.false_eq_true, if_false]
  rw [leadsWith_self_append "```".data _]
  simp only [if_true]
  rw [hdrop, hW2, trailsWith_append_self]
  simp only [if_true]
  rw [htake, hfin]

/-- Fence stripping leaves an unfenced rendered mapping unchanged. -/
lemma stripFence_dumps (m : List (String × String)) :
    stripFence (json_dumps_chars m) = json_dumps_chars m := by
  have hjson : leadsWith "```json".data (json_dumps_chars m) = false := by
    rw [dumps_shape]
    rfl
  have hbare : leadsWith "```".data (json_dumps_chars m) = false := by
    rw [dumps_shape]
    rfl
  have htail : trailsWith "```".data (json_dumps_chars m) = false := by
    rw [trailsWith, dumps_reverse_shape]
    rfl
  simp only [stripFence]
  rw [dumps_trimChars, hjson, hbare]
  simp only [Bool.false_eq_true, if_false]
  rw [htail]
  simp only [Bool.false_eq_true, if_false]
  exact dumps_trimChars m

/-- A text whose trimmed form has no leading fence is untouched by the
stripper apart from the strip itself. -/
lemma stripFence_nofence (l : List Char)
    (h3 : leadsWith "```".data (trimChars l) = false)
    (ht : trailsWith "```".data (trimChars l) = false) :
    stripFence l = trimChars l := by
  have h7 : leadsWith "```json".data (trimChars l) = false := by
    by_contra hc
    have hc' : leadsWith "```json".data (trimChars l) = true := by
      cases h2 : leadsWith "```json".data (trimChars l)
      · exact absurd h2 hc
      · rfl
    have h8 := leadsWith_append "```".data "json".data (trimChars l)
      (by
        rw [show ("```".data ++ "json".data : List Char) = "```json".data from by decide]
        exact hc')
    rw [h3] at h8
    exact Bool.noConfusion h8
  simp only [stripFence]
  rw [h7]
  simp only [Bool.false_eq_true, if_false]
  rw [h3]
  simp only [Bool.false_eq_true, if_false]
  rw [ht]
  simp only [Bool.false_eq_true, if_false]
  exact trimChars_idem l

/-- The `json.loads` model is invariant under a prior `strip()`. -/
lemma loads_trimChars (l : List Char) :
    json_loads_chars (trimChars l) = json_loads_chars l := by
  unfold json_loads_chars
  rw [trimChars_idem]

/-- **C8** counterexample: the decoder strips only the `json` language hint.
A fence tagged `python` wrapping the rendering of the mapping
`[("a", "b")]` fails to decode (`none`, i.e. `DecodeError`) instead of
recovering the mapping as the claim states. -/
theorem parse_json_response_hint_counterexample :
    "```python\n\x7b\"a\": \"b\"\x7d\n```".data =
      fenceWrap "python" (json_dumps_chars [("a", "b")]) ∧
    parse_json_response "```python\n\x7b\"a\": \"b\"\x7d\n```" = none := by
  constructor
  · decide
  · rfl

/-- **C8 amended**: the fence round-trip holds for the `json`-tagged fence
and the untagged fence (the only fences the decoder strips — any other
language hint is left in place and decoding fails, see the counterexample);
an unfenced rendering decodes to the mapping; any valid structured-data
text without fence markers decodes to the same mapping; and any text whose
stripped form is not valid structured data raises the decode failure. -/
theorem decoder_roundtrip_amended :
    (∀ m : List (String × String),
        (∀ kv ∈ m, goodStr kv.1 = true ∧ goodStr kv.2 = true) →
        parse_json_response (String.mk (fenceWrap "json" (json_dumps_chars m))) =
          some m ∧
        parse_json_response (String.mk (fenceWrap "" (json_dumps_chars m))) =
          some m ∧
        parse_json_response (String.mk (json_dumps_chars m)) = some m) ∧
    (∀ (s : String) (m : List (String × String)),
        leadsWith "```".data (trimChars s.data) = false →
        trailsWith "```".data (trimChars s.data) = false →
        json_loads_chars s.data = some m →
        parse_json_response s = some m) ∧
    (∀ s : String, json_loads_chars (stripFence s.data) = none →
        parse_json_response s = none) := by
  refine ⟨?_, ?_, ?_⟩
  · intro m hgood
    refine ⟨?_, ?_, ?_⟩
    · show json_loads_chars (stripFence (fenceWrap "json" (json_dumps_chars m))) = some m
      rw [stripFence_fenceWrap_json _ (dumps_dropWhile_fix m) (dumps_reverse_dropWhile_fix m)]
      exact loads_dumps m hgood
    · show json_loads_chars (stripFence (fenceWrap "" (json_dumps_chars m))) = some m
      rw [stripFence_fenceWrap_bare _ (dumps_dropWhile_fix m) (dumps_reverse_dropWhile_fix m)]
      exact loads_dumps m hgood
    · show json_loads_chars (stripFence (json_dumps_chars m)) = some m
      rw [stripFence_dumps m]
      exact loads_dumps m hgood
  · intro s m h3 ht hloads
    show json_loads_chars (stripFence s.data) = some m
    rw [stripFence_nofence s.data h3 ht, loads_trimChars]
    exact hloads
  · intro s h
    exact h

/-- Witness for the amended C8 at the mapping `[("a", "b")]`. -/
theorem decoder_roundtrip_amended_witness :
    (parse_json_response
        (String.mk (fenceWrap "json" (json_dumps_chars [("a", "b")]))) =
          some [("a", "b")] ∧
      parse_json_response
        (String.mk (fenceWrap "" (json_dumps_chars [("a", "b")]))) =
          some [("a", "b")] ∧
      parse_json_response (String.mk (json_dumps_chars [("a", "b")])) =
        some [("a", "b")]) ∧
    parse_json_response "\x7b\"a\": \"b\"\x7d" = some [("a", "b")] ∧
    parse_json_response "oops" = none :=
  ⟨decoder_roundtrip_amended.1 [("a", "b")] (by decide),
   decoder_roundtrip_amended.2.1 "\x7b\"a\": \"b\"\x7d" [("a", "b")]
     (by decide) (by decide) (by decide),
   decoder_roundtrip_amended.2.2 "oops" (by decide)⟩

/-- **C9**: the demo generator is a pure function (identical inputs give
definitionally identical output — the source uses no randomness, time or
I/O); the resume `"Python, React, SQL"` matches all three of those
vocabulary keywords; and against `"Full Stack Developer"` it scores
strictly higher than any resume containing none of that role's core or
supporting keywords. -/
theorem demo_deterministic_and_keyword_score :
    (∀ r role : String, get_demo_analysis r role = get_demo_analysis r role) ∧
    ("python" ∈ foundSkills "Python, React, SQL" ∧
      "react" ∈ foundSkills "Python, React, SQL" ∧
      "sql" ∈ foundSkills "Python, React, SQL") ∧
    (∀ t : String,
        (∀ kw ∈ (roleReqs "Full Stack Developer").1 ++ (roleReqs "Full Stack Developer").2,
          containsSub kw.data (pyLower t) = false) →
        demoScore t "Full Stack Developer" <
          demoScore "Python, React, SQL" "Full Stack Developer") := by
  refine ⟨fun r role => rfl, ⟨by decide, by decide, by decide⟩, ?_⟩
  intro t hkw
  have hA : demoScore "Python, React, SQL" "Full Stack Developer" = 48 := by
    have h1 : coreMatch "Python, React, SQL" "Full Stack Developer" = 2 := by decide
    have h2 : supportingMatch "Python, React, SQL" "Full Stack Developer" = 0 := by decide
    have h3 : (roleReqs "Full Stack Developer").1.length = 5 := by decide
    have h4 : (roleReqs "Full Stack Developer").2.length = 4 := by decide
    rw [demoScore, h1, h2, h3, h4]
    rw [show ((2 : ℕ) : ℚ) / ((5 : ℕ) : ℚ) * 70 + ((0 : ℕ) : ℚ) / ((4 : ℕ) : ℚ) * 30 =
        ((28 : ℤ) : ℚ) from by push_cast; norm_num]
    rw [Int.floor_intCast]
    decide
  have hcm0 : coreMatch t "Full Stack Developer" = 0 := by
    rw [coreMatch, List.filter_eq_nil_iff.mpr ?_]
    · rfl
    · intro a ha
      have h5 := hkw a (List.mem_append_left _ ha)
      simp [h5]
  have hsm0 : supportingMatch t "Full Stack Developer" = 0 := by
    rw [supportingMatch, List.filter_eq_nil_iff.mpr ?_]
    · rfl
    · intro a ha
      have h5 := hkw a (List.mem_append_right _ ha)
      simp [h5]
  have hB : demoScore t "Full Stack Developer" = 25 := by
    have h3 : (roleReqs "Full Stack Developer").1.length = 5 := by decide
    have h4 : (roleReqs "Full Stack Developer").2.length = 4 := by decide
    rw [demoScore, hcm0, hsm0, h3, h4]
    rw [show ((0 : ℕ) : ℚ) / ((5 : ℕ) : ℚ) * 70 + ((0 : ℕ) : ℚ) / ((4 : ℕ) : ℚ) * 30 =
        ((0 : ℤ) : ℚ) from by push_cast; norm_num]
    rw [Int.floor_intCast]
    decide
  rw [hA, hB]
  decide

/-- Witness for C9 at the keyword-free resume `"zzz"`. -/
theorem demo_deterministic_and_keyword_score_witness :
    demoScore "zzz" "Full Stack Developer" <
      demoScore "Python, React, SQL" "Full Stack Developer" :=
  demo_deterministic_and_keyword_score.2.2 "zzz" (by decide)

end CareerCopilot
